import Mathlib

/-!
Verification of the segment/crop pipeline of `yt_shorts.py` (and its use in
`web_app.py`).  The Python functions are shallowly embedded: strings are
`String` or `List Char`, Python `float` seconds are modelled by `ℚ`
(decimal literals and the arithmetic appearing in the program are exact),
Python `int` by `ℤ` or `ℕ`, raised `ValueError`s by `Except PyError`.
Regular-expression matching is embedded by explicit, equivalent string
decompositions (each regex in the source has capture groups that cannot
contain the separator character, so splitting on the separator is a faithful
implementation; this is argued at each matcher below).
-/

/-- Mimics Python `str.split(sep)` on a list of characters: splits at every
occurrence of `c`; `[] ↦ [[]]`, separators at the ends produce empty pieces. -/
def splitOnCharAux (c : Char) : List Char → List Char → List (List Char)
  | [], acc => [acc.reverse]
  | x :: xs, acc =>
    if x = c then acc.reverse :: splitOnCharAux c xs []
    else splitOnCharAux c xs (x :: acc)

def splitOnChar (s : List Char) (c : Char) : List (List Char) :=
  splitOnCharAux c s []

/-- Inverse of splitting: interleave the separator between the pieces. -/
def joinSep (c : Char) : List (List Char) → List Char
  | [] => []
  | [x] => x
  | x :: xs => x ++ c :: joinSep c xs

/-- Mimics Python `str.strip()`: remove whitespace from both ends. -/
def stripChars (s : List Char) : List Char :=
  ((s.dropWhile Char.isWhitespace).reverse.dropWhile Char.isWhitespace).reverse

/-- `\d+` : one or more ASCII digits. -/
def isDigits (s : List Char) : Bool :=
  !s.isEmpty && s.all Char.isDigit

/-- Numeric value of a digit string, as Python `int()` computes it. -/
def natOfDigits (s : List Char) : ℕ :=
  s.foldl (fun acc c => acc * 10 + (c.toNat - 48)) 0

/-- Matcher for the source regex `^\d+(\.\d+)?$` (used by `parse_time`).
Since `\d` never matches `.`, a match is exactly a decomposition into one or
two digit groups separated by a single dot, i.e. `splitOnChar s '.'` has one
or two pieces, all of them nonempty digit strings. -/
def matchesNumber (s : List Char) : Bool :=
  match splitOnChar s '.' with
  | [a] => isDigits a
  | [a, b] => isDigits a && isDigits b
  | _ => false

/-- Exact value of Python `float(s)` for a string matching `^\d+(\.\d+)?$`. -/
def ratOfNumber (s : List Char) : ℚ :=
  match splitOnChar s '.' with
  | [a] => (natOfDigits a : ℚ)
  | [a, b] => (natOfDigits a : ℚ) + (natOfDigits b : ℚ) / (10 : ℚ) ^ b.length
  | _ => 0

/-- Matcher for the source regex `^(\d+):(\d{1,2})(?::(\d{1,2}))?$`:
returns the captured `(h, mm, ss)` (with `ss = 0` when the third group is
absent, as in the source).  The groups cannot contain `:`, so a match is
exactly a decomposition into 2 or 3 colon-separated digit groups with the
length bounds of the regex. -/
def matchesHMS (s : List Char) : Option (ℕ × ℕ × ℕ) :=
  match splitOnChar s ':' with
  | [hp, mp] =>
    if isDigits hp ∧ isDigits mp ∧ mp.length ≤ 2 then
      some (natOfDigits hp, natOfDigits mp, 0)
    else none
  | [hp, mp, sp] =>
    if isDigits hp ∧ isDigits mp ∧ mp.length ≤ 2 ∧ isDigits sp ∧ sp.length ≤ 2 then
      some (natOfDigits hp, natOfDigits mp, natOfDigits sp)
    else none
  | _ => none

/-- The `ValueError`s raised by the source, plus the generic tuple-unpacking
`ValueError` Python raises when `a, b = xs` receives `xs` of length ≠ 2
(`unpackMismatch expected got`). -/
inductive PyError where
  | invalidTimeFormat (token : String)
  | invalidSegment (token : String)
  | invalidRatio
  | invalidResolution
  | unpackMismatch (expected got : ℕ)
  deriving DecidableEq

instance {ε α : Type} [DecidableEq ε] [DecidableEq α] : DecidableEq (Except ε α) := fun x y =>
  match x, y with
  | .ok a, .ok b => decidable_of_iff (a = b) (by simp)
  | .error a, .error b => decidable_of_iff (a = b) (by simp)
  | .ok _, .error _ => isFalse (by simp)
  | .error _, .ok _ => isFalse (by simp)

/-- `parse_time` from `yt_shorts.py` (lines 30–39). -/
def parse_time (s : String) : Except PyError ℚ :=
  if matchesNumber s.data then .ok (ratOfNumber s.data)
  else
    match matchesHMS s.data with
    | some (hv, mv, sv) => .ok ((hv * 3600 + mv * 60 + sv : ℕ) : ℚ)
    | none => .error (.invalidTimeFormat s)

/-- The separator disambiguation of `parse_segments` (line 46):
`if "-" not in part and ":" in part and part.count(":") == 1`, then split on
`:`; otherwise split on `-`. -/
def splitToken (part : List Char) : List (List Char) :=
  if '-' ∉ part ∧ ':' ∈ part ∧ part.count ':' = 1 then splitOnChar part ':'
  else splitOnChar part '-'

/-- Line 44: `[p.strip() for p in spec.split(",") if p.strip()]`. -/
def tokens (spec : String) : List (List Char) :=
  ((splitOnChar spec.data ',').map stripChars).filter (· ≠ [])

/-- The body of the `for part in parts` loop of `parse_segments`
(lines 46–57): `.ok none` models `continue` (segment dropped),
`.ok (some p)` models `segments.append(p)`.  The `a, b = ...split(...)`
unpacking raises a generic `ValueError` when the split does not have exactly
two pieces. -/
def processToken (duration : ℚ) (part : List Char) : Except PyError (Option (ℚ × ℚ)) :=
  match splitToken part with
  | [a, b] =>
    match parse_time (String.mk a) with
    | .error e => .error e
    | .ok s =>
      match parse_time (String.mk b) with
      | .error e => .error e
      | .ok e =>
        if s < 0 ∨ e ≤ s then .error (.invalidSegment (String.mk part))
        else if duration ≤ s then .ok none
        else .ok (some (s, min e duration))
  | pieces => .error (.unpackMismatch 2 pieces.length)

/-- The loop of `parse_segments`, in order, stopping at the first error. -/
def parseSegmentsList (duration : ℚ) : List (List Char) → Except PyError (List (ℚ × ℚ))
  | [] => .ok []
  | t :: ts =>
    match processToken duration t with
    | .error e => .error e
    | .ok none => parseSegmentsList duration ts
    | .ok (some p) =>
      match parseSegmentsList duration ts with
      | .error e => .error e
      | .ok rest => .ok (p :: rest)

/-- `parse_segments` from `yt_shorts.py` (lines 42–58). -/
def parse_segments (spec : String) (duration : ℚ) : Except PyError (List (ℚ × ℚ)) :=
  parseSegmentsList duration (tokens spec)

/-- The result the spec prescribes for one token that parses and validates:
kept (with `end` clamped to `min end duration`) when `start < duration`,
dropped otherwise.  Used to state the refinement claim about
`parse_segments`. -/
def clampedSeg (duration : ℚ) (t : List Char) : Option (ℚ × ℚ) :=
  match splitToken t with
  | [a, b] =>
    match parse_time (String.mk a), parse_time (String.mk b) with
    | .ok s, .ok e => if s < duration then some (s, min e duration) else none
    | _, _ => none
  | _ => none

/-- `ratio_from_string` from `yt_shorts.py` (lines 61–65), regex
`^(\d+)\s*:\s*(\d+)$`.  Neither `\d` nor `\s` matches `:`, so the regex
matches exactly when the string splits at a unique `:` into
`digits ++ whitespace` and `whitespace ++ digits`.  Components are Python
ints, modelled as `ℤ`. -/
def ratio_from_string (s : String) : Except PyError (ℤ × ℤ) :=
  match splitOnChar s.data ':' with
  | [a, b] =>
    let d1 := a.takeWhile Char.isDigit
    let r1 := a.dropWhile Char.isDigit
    let d2 := b.dropWhile Char.isWhitespace
    if d1 ≠ [] ∧ r1.all Char.isWhitespace ∧ d2 ≠ [] ∧ d2.all Char.isDigit then
      .ok ((natOfDigits d1 : ℤ), (natOfDigits d2 : ℤ))
    else .error .invalidRatio
  | _ => .error .invalidRatio

/-- The last two lines of `resolution_from_arg` (lines 93–95). -/
def defaultResolution (aspect : ℤ × ℤ) : ℤ × ℤ :=
  if aspect = (9, 16) then (1080, 1920) else (1920, 1080)

/-- `resolution_from_arg` from `yt_shorts.py` (lines 87–95).  Python's
`if arg:` is false for `None` and for the empty string, so both fall to the
default policy.  The regex `^(\d+)x(\d+)$` is embedded by splitting on `x`
(the digit groups cannot contain `x`). -/
def resolution_from_arg (arg : Option String) (aspect : ℤ × ℤ) : Except PyError (ℤ × ℤ) :=
  match arg with
  | some s =>
    if s.data ≠ [] then
      match splitOnChar s.data 'x' with
      | [a, b] =>
        if isDigits a ∧ isDigits b then .ok ((natOfDigits a : ℤ), (natOfDigits b : ℤ))
        else .error .invalidResolution
      | _ => .error .invalidResolution
    else .ok (defaultResolution aspect)
  | none => .ok (defaultResolution aspect)

/-- Python `int(x)` on a float/rational: truncation toward zero. -/
def truncQ (x : ℚ) : ℤ := if 0 ≤ x then ⌊x⌋ else ⌈x⌉

/-- `crop_to_ratio` from `yt_shorts.py` (lines 68–84), reduced to its
geometry: the returned clip is represented by the crop rectangle
`(x1, y1, x2, y2)` passed to `clip.crop` (the uncropped identity return on
line 74 is the full frame `(0, 0, w, h)`).  Python float arithmetic on
these integer inputs is modelled exactly over `ℚ` (`1e-6` as `1/1000000`);
`//` is Python floor division (`Int.fdiv`).  Python raises
`ZeroDivisionError` when `trh = 0` (resp. `h = 0`); the claims about this
function assume the data-model invariants `w, h, trw, trh > 0`, under which
no division by zero occurs. -/
def crop_to_ratio (w h trw trh : ℤ) : ℤ × ℤ × ℤ × ℤ :=
  let target : ℚ := (trw : ℚ) / (trh : ℚ)
  let current : ℚ := (w : ℚ) / (h : ℚ)
  if |current - target| < 1 / 1000000 then (0, 0, w, h)
  else if target < current then
    let new_w : ℤ := truncQ ((h : ℚ) * target)
    let x1 : ℤ := Int.fdiv (w - new_w) 2
    (x1, 0, x1 + new_w, h)
  else
    let new_h : ℤ := truncQ ((w : ℚ) / target)
    let y1 : ℤ := Int.fdiv (h - new_h) 2
    (0, y1, w, y1 + new_h)

/-- The loop of `process_segments` (lines 101–115), reduced to its pure
observable: the list of output paths, in loop order.  `i` is the 1-based
index from `enumerate(segments, start=1)`; the encode calls into moviepy
are external side effects writing to exactly these paths. -/
def processLoop (output_dir pre : String) : ℕ → List (ℚ × ℚ) → List String
  | _, [] => []
  | i, _ :: rest =>
    (output_dir ++ "/" ++ pre ++ "_part" ++ toString i ++ ".mp4") ::
      processLoop output_dir pre (i + 1) rest

/-- `process_segments` from `yt_shorts.py` (lines 98–117): the list of
paths it writes and returns.  `video_path`, `aspect`, `resolution` and
`fps` only influence the contents of the encoded files, not the returned
paths. -/
def process_segments (video_path : String) (segments : List (ℚ × ℚ)) (aspect : ℤ × ℤ)
    (resolution : ℤ × ℤ) (fps : ℕ) (output_dir : String) (pre : String) : List String :=
  processLoop output_dir pre 1 segments

/-! ### Lemmas about `splitOnChar` -/

theorem splitOnCharAux_ne_nil (c : Char) (s : List Char) :
    ∀ acc, splitOnCharAux c s acc ≠ [] := by
  induction s with
  | nil => intro acc; simp [splitOnCharAux]
  | cons x xs ih =>
    intro acc
    rw [splitOnCharAux]
    split
    · simp
    · exact ih (x :: acc)

theorem splitOnCharAux_of_not_mem (c : Char) (s acc : List Char) (h : c ∉ s) :
    splitOnCharAux c s acc = [acc.reverse ++ s] := by
  induction s generalizing acc with
  | nil => simp [splitOnCharAux]
  | cons x xs ih =>
    rw [splitOnCharAux, if_neg (by rintro rfl; exact h (List.mem_cons_self _ _))]
    rw [ih _ fun hm => h (List.mem_cons_of_mem _ hm)]
    simp

theorem splitOnChar_of_not_mem (c : Char) (s : List Char) (h : c ∉ s) :
    splitOnChar s c = [s] := by
  rw [splitOnChar, splitOnCharAux_of_not_mem c s [] h, List.reverse_nil, List.nil_append]

theorem splitOnCharAux_append (c : Char) (a b acc : List Char) (h : c ∉ a) :
    splitOnCharAux c (a ++ c :: b) acc = (acc.reverse ++ a) :: splitOnChar b c := by
  induction a generalizing acc with
  | nil => simp [splitOnCharAux, splitOnChar]
  | cons x xs ih =>
    rw [List.cons_append, splitOnCharAux,
      if_neg (by rintro rfl; exact h (List.mem_cons_self _ _))]
    rw [ih _ fun hm => h (List.mem_cons_of_mem _ hm)]
    simp

theorem splitOnChar_append (c : Char) (a b : List Char) (h : c ∉ a) :
    splitOnChar (a ++ c :: b) c = a :: splitOnChar b c := by
  rw [splitOnChar, splitOnCharAux_append c a b [] h, List.reverse_nil, List.nil_append]

theorem splitOnCharAux_length (c : Char) (s : List Char) :
    ∀ acc, (splitOnCharAux c s acc).length = s.count c + 1 := by
  induction s with
  | nil => intro acc; simp [splitOnCharAux]
  | cons x xs ih =>
    intro acc
    rw [splitOnCharAux]
    by_cases hx : x = c
    · subst hx
      rw [if_pos rfl]
      simp [ih, List.count_cons]
    · rw [if_neg hx, ih]
      simp [List.count_cons, hx]

theorem splitOnChar_length (c : Char) (s : List Char) :
    (splitOnChar s c).length = s.count c + 1 :=
  splitOnCharAux_length c s []

theorem joinSep_cons (c : Char) (x : List Char) (L : List (List Char)) (h : L ≠ []) :
    joinSep c (x :: L) = x ++ c :: joinSep c L := by
  cases L with
  | nil => exact absurd rfl h
  | cons y ys => rfl

theorem joinSep_splitOnCharAux (c : Char) (s : List Char) :
    ∀ acc, joinSep c (splitOnCharAux c s acc) = acc.reverse ++ s := by
  induction s with
  | nil => intro acc; simp [splitOnCharAux, joinSep]
  | cons x xs ih =>
    intro acc
    rw [splitOnCharAux]
    by_cases hx : x = c
    · subst hx
      rw [if_pos rfl, joinSep_cons _ _ _ (splitOnCharAux_ne_nil _ _ _), ih []]
      simp
    · rw [if_neg hx, ih]
      simp

theorem joinSep_splitOnChar (c : Char) (s : List Char) :
    joinSep c (splitOnChar s c) = s := by
  rw [splitOnChar, joinSep_splitOnCharAux, List.reverse_nil, List.nil_append]

theorem not_mem_of_mem_splitOnCharAux (c : Char) (s : List Char) :
    ∀ acc, c ∉ acc → ∀ p ∈ splitOnCharAux c s acc, c ∉ p := by
  induction s with
  | nil =>
    intro acc hacc p hp
    rw [splitOnCharAux, List.mem_singleton] at hp
    subst hp
    simpa using hacc
  | cons x xs ih =>
    intro acc hacc p hp
    rw [splitOnCharAux] at hp
    by_cases hx : x = c
    · subst hx
      rw [if_pos rfl, List.mem_cons] at hp
      rcases hp with rfl | hp
      · simpa using hacc
      · exact ih [] (by simp) p hp
    · rw [if_neg hx] at hp
      exact ih (x :: acc) (by simp [hacc, Ne.symm hx]) p hp

theorem not_mem_of_mem_splitOnChar (c : Char) (s : List Char) :
    ∀ p ∈ splitOnChar s c, c ∉ p :=
  not_mem_of_mem_splitOnCharAux c s [] (by simp)

/-- Inversion for a two-piece split: the string is the two pieces joined by
one separator, and neither piece contains the separator. -/
theorem splitOnChar_eq_pair (c : Char) (s a b : List Char)
    (h : splitOnChar s c = [a, b]) : s = a ++ c :: b ∧ c ∉ a ∧ c ∉ b := by
  refine ⟨?_, ?_, ?_⟩
  · have := joinSep_splitOnChar c s
    rw [h] at this
    rw [← this]
    rfl
  · exact not_mem_of_mem_splitOnChar c s a (by rw [h]; simp)
  · exact not_mem_of_mem_splitOnChar c s b (by rw [h]; simp)

/-! ### Lemmas about the regex matchers -/

theorem mem_isDigits (a : List Char) (h : isDigits a) (x : Char) (hx : x ∈ a) :
    x.isDigit := by
  rw [isDigits, Bool.and_eq_true, List.all_eq_true] at h
  exact h.2 x hx

theorem isDigits_eq_false (a : List Char) (x : Char) (hx : x ∈ a) (hd : ¬ x.isDigit) :
    isDigits a = false := by
  have hall : a.all Char.isDigit = false := by
    rw [List.all_eq_false]
    exact ⟨x, hx, by simpa using hd⟩
  simp [isDigits, hall]

theorem isDigits_ne_nil (a : List Char) (h : isDigits a) : a ≠ [] := by
  rw [isDigits, Bool.and_eq_true] at h
  simpa using h.1

theorem colon_not_mem_of_isDigits (a : List Char) (h : isDigits a) : ':' ∉ a :=
  fun hm => by simpa using mem_isDigits a h ':' hm

theorem dot_not_mem_of_isDigits (a : List Char) (h : isDigits a) : '.' ∉ a :=
  fun hm => by simpa using mem_isDigits a h '.' hm

/-- The plain-number regex rejects any string containing a character that is
neither a digit nor the dot. -/
theorem matchesNumber_eq_false (s : List Char) (x : Char) (hx : x ∈ s)
    (hd : ¬ x.isDigit) (hne : x ≠ '.') : matchesNumber s = false := by
  rw [matchesNumber]
  rcases hsplit : splitOnChar s '.' with _ | ⟨a, _ | ⟨b, _ | _⟩⟩
  · rfl
  · have hs : s = a := by
      have := joinSep_splitOnChar '.' s
      rw [hsplit] at this
      exact this.symm
    rw [← hs]
    exact isDigits_eq_false s x hx hd
  · obtain ⟨hs, -, -⟩ := splitOnChar_eq_pair '.' s a b hsplit
    rw [hs] at hx
    rcases List.mem_append.mp hx with h | h
    · simp [isDigits_eq_false a x h hd]
    · rcases List.mem_cons.mp h with h' | h'
      · exact absurd h' hne
      · simp [isDigits_eq_false b x h' hd]
  · rfl

theorem matchesNumber_digits (a : List Char) (h : isDigits a) :
    matchesNumber a = true ∧ ratOfNumber a = (natOfDigits a : ℚ) := by
  have hsplit : splitOnChar a '.' = [a] :=
    splitOnChar_of_not_mem _ _ (dot_not_mem_of_isDigits a h)
  constructor
  · rw [matchesNumber, hsplit]
    exact h
  · rw [ratOfNumber, hsplit]

theorem matchesNumber_decimal (a b : List Char) (ha : isDigits a) (hb : isDigits b) :
    matchesNumber (a ++ '.' :: b) = true ∧
      ratOfNumber (a ++ '.' :: b) =
        (natOfDigits a : ℚ) + (natOfDigits b : ℚ) / (10 : ℚ) ^ b.length := by
  have hsplit : splitOnChar (a ++ '.' :: b) '.' = [a, b] := by
    rw [splitOnChar_append _ _ _ (dot_not_mem_of_isDigits a ha),
      splitOnChar_of_not_mem _ _ (dot_not_mem_of_isDigits b hb)]
  constructor
  · rw [matchesNumber, hsplit]
    show (isDigits a && isDigits b) = true
    rw [ha, hb]
    rfl
  · rw [ratOfNumber, hsplit]

theorem matchesHMS_pair (hl ml : List Char) (hh : isDigits hl) (hm : isDigits ml)
    (hlen : ml.length ≤ 2) :
    matchesHMS (hl ++ ':' :: ml) = some (natOfDigits hl, natOfDigits ml, 0) := by
  have hsplit : splitOnChar (hl ++ ':' :: ml) ':' = [hl, ml] := by
    rw [splitOnChar_append _ _ _ (colon_not_mem_of_isDigits hl hh),
      splitOnChar_of_not_mem _ _ (colon_not_mem_of_isDigits ml hm)]
  rw [matchesHMS, hsplit]
  show (if isDigits hl = true ∧ isDigits ml = true ∧ ml.length ≤ 2 then
    some (natOfDigits hl, natOfDigits ml, 0) else none) = _
  rw [if_pos ⟨hh, hm, hlen⟩]

theorem matchesHMS_triple (hl ml sl : List Char) (hh : isDigits hl) (hm : isDigits ml)
    (hlm : ml.length ≤ 2) (hs : isDigits sl) (hls : sl.length ≤ 2) :
    matchesHMS (hl ++ ':' :: (ml ++ ':' :: sl)) =
      some (natOfDigits hl, natOfDigits ml, natOfDigits sl) := by
  have hsplit : splitOnChar (hl ++ ':' :: (ml ++ ':' :: sl)) ':' = [hl, ml, sl] := by
    rw [splitOnChar_append _ _ _ (colon_not_mem_of_isDigits hl hh),
      splitOnChar_append _ _ _ (colon_not_mem_of_isDigits ml hm),
      splitOnChar_of_not_mem _ _ (colon_not_mem_of_isDigits sl hs)]
  rw [matchesHMS, hsplit]
  show (if isDigits hl = true ∧ isDigits ml = true ∧ ml.length ≤ 2 ∧
      isDigits sl = true ∧ sl.length ≤ 2 then
    some (natOfDigits hl, natOfDigits ml, natOfDigits sl) else none) = _
  rw [if_pos ⟨hh, hm, hlm, hs, hls⟩]

/-! ### Characterization of `parse_time` -/

theorem parse_time_digits (a : List Char) (h : isDigits a) :
    parse_time (String.mk a) = .ok ((natOfDigits a : ℚ)) := by
  obtain ⟨hm, hv⟩ := matchesNumber_digits a h
  rw [parse_time]
  show (if matchesNumber a = true then _ else _) = _
  rw [if_pos hm]
  exact congrArg Except.ok hv

theorem parse_time_decimal (a b : List Char) (ha : isDigits a) (hb : isDigits b) :
    parse_time (String.mk (a ++ '.' :: b)) =
      .ok ((natOfDigits a : ℚ) + (natOfDigits b : ℚ) / (10 : ℚ) ^ b.length) := by
  obtain ⟨hm, hv⟩ := matchesNumber_decimal a b ha hb
  rw [parse_time]
  show (if matchesNumber (a ++ '.' :: b) = true then _ else _) = _
  rw [if_pos hm]
  exact congrArg Except.ok hv

theorem parse_time_hm (hl ml : List Char) (hh : isDigits hl) (hm : isDigits ml)
    (hlen : ml.length ≤ 2) :
    parse_time (String.mk (hl ++ ':' :: ml)) =
      .ok ((natOfDigits hl * 3600 + natOfDigits ml * 60 : ℕ) : ℚ) := by
  have hnum : matchesNumber (hl ++ ':' :: ml) = false :=
    matchesNumber_eq_false _ ':' (List.mem_append.mpr (Or.inr (List.mem_cons_self _ _)))
      (by decide) (by decide)
  rw [parse_time]
  show (if matchesNumber (hl ++ ':' :: ml) = true then _ else _) = _
  rw [hnum]
  show (match matchesHMS (hl ++ ':' :: ml) with
    | some (hv, mv, sv) => Except.ok ((hv * 3600 + mv * 60 + sv : ℕ) : ℚ)
    | none => Except.error (PyError.invalidTimeFormat (String.mk (hl ++ ':' :: ml)))) = _
  rw [matchesHMS_pair hl ml hh hm hlen]
  simp

theorem parse_time_hms (hl ml sl : List Char) (hh : isDigits hl) (hm : isDigits ml)
    (hlm : ml.length ≤ 2) (hs : isDigits sl) (hls : sl.length ≤ 2) :
    parse_time (String.mk (hl ++ ':' :: (ml ++ ':' :: sl))) =
      .ok ((natOfDigits hl * 3600 + natOfDigits ml * 60 + natOfDigits sl : ℕ) : ℚ) := by
  have hnum : matchesNumber (hl ++ ':' :: (ml ++ ':' :: sl)) = false :=
    matchesNumber_eq_false _ ':' (List.mem_append.mpr (Or.inr (List.mem_cons_self _ _)))
      (by decide) (by decide)
  rw [parse_time]
  show (if matchesNumber (hl ++ ':' :: (ml ++ ':' :: sl)) = true then _ else _) = _
  rw [hnum]
  show (match matchesHMS (hl ++ ':' :: (ml ++ ':' :: sl)) with
    | some (hv, mv, sv) => Except.ok ((hv * 3600 + mv * 60 + sv : ℕ) : ℚ)
    | none =>
        Except.error (PyError.invalidTimeFormat (String.mk (hl ++ ':' :: (ml ++ ':' :: sl))))) = _
  rw [matchesHMS_triple hl ml sl hh hm hlm hs hls]

theorem parse_time_fail (s : String) (h1 : matchesNumber s.data = false)
    (h2 : matchesHMS s.data = none) :
    parse_time s = .error (.invalidTimeFormat s) := by
  rw [parse_time]
  rw [h1]
  show (match matchesHMS s.data with
    | some (hv, mv, sv) => Except.ok ((hv * 3600 + mv * 60 + sv : ℕ) : ℚ)
    | none => Except.error (PyError.invalidTimeFormat s)) = _
  rw [h2]

/-! ### The loop body on a valid token -/

theorem not_mem_of_isDigits (a : List Char) (h : isDigits a) (c : Char)
    (hc : ¬ c.isDigit) : c ∉ a :=
  fun hm => hc (mem_isDigits a h c hm)

theorem processToken_valid (d : ℚ) (t a b : List Char) (s e : ℚ)
    (hsplit : splitToken t = [a, b])
    (ha : parse_time (String.mk a) = .ok s) (hb : parse_time (String.mk b) = .ok e)
    (hs : 0 ≤ s) (hse : s < e) :
    processToken d t = .ok (clampedSeg d t) := by
  simp only [processToken, clampedSeg, hsplit, ha, hb]
  rw [if_neg (by push_neg; exact ⟨hs, hse⟩)]
  by_cases hd : d ≤ s
  · rw [if_pos hd, if_neg (not_lt.mpr hd)]
  · rw [if_neg hd, if_pos (not_le.mp hd)]

theorem parseSegmentsList_eq_filterMap (d : ℚ) (ts : List (List Char))
    (h : ∀ t ∈ ts, processToken d t = .ok (clampedSeg d t)) :
    parseSegmentsList d ts = .ok (ts.filterMap (clampedSeg d)) := by
  induction ts with
  | nil => rfl
  | cons t ts ih =>
    have ht := h t (List.mem_cons_self _ _)
    have ih' := ih fun u hu => h u (List.mem_cons_of_mem _ hu)
    cases hc : clampedSeg d t with
    | none => simp only [parseSegmentsList, ht, hc, ih', List.filterMap_cons]
    | some p => simp only [parseSegmentsList, ht, hc, ih', List.filterMap_cons]

/-- C1: for a spec string whose tokens all parse and validate and a duration
`d > 0`, `parse_segments` succeeds and returns, in input order, one segment
per token whose start is `< d` (with the end clamped to `min end d`), silently
dropping every token whose start is `≥ d`; every returned segment satisfies
`0 ≤ start < end ≤ d`. -/
theorem c1_parse_segments_clamp (spec : String) (d : ℚ) (hd : 0 < d)
    (hall : ∀ t ∈ tokens spec, ∃ a b s e, splitToken t = [a, b] ∧
      parse_time (String.mk a) = .ok s ∧ parse_time (String.mk b) = .ok e ∧
      0 ≤ s ∧ s < e) :
    parse_segments spec d = .ok ((tokens spec).filterMap (clampedSeg d)) ∧
      ∀ p ∈ (tokens spec).filterMap (clampedSeg d), 0 ≤ p.1 ∧ p.1 < p.2 ∧ p.2 ≤ d := by
  constructor
  · rw [parse_segments]
    apply parseSegmentsList_eq_filterMap
    intro t ht
    obtain ⟨a, b, s, e, h1, h2, h3, h4, h5⟩ := hall t ht
    exact processToken_valid d t a b s e h1 h2 h3 h4 h5
  · intro p hp
    rw [List.mem_filterMap] at hp
    obtain ⟨t, ht, hct⟩ := hp
    obtain ⟨a, b, s, e, h1, h2, h3, h4, h5⟩ := hall t ht
    simp only [clampedSeg, h1, h2, h3] at hct
    by_cases hsd : s < d
    · rw [if_pos hsd] at hct
      obtain rfl := Option.some_injective _ hct
      exact ⟨h4, lt_min h5 hsd, min_le_right _ _⟩
    · rw [if_neg hsd] at hct
      exact absurd hct (by simp)

theorem c1_witness :
    parse_segments "0-10,95-120" (100 : ℚ) = .ok [(0, 10), (95, 100)] := by
  have hall : ∀ t ∈ tokens "0-10,95-120", ∃ a b s e, splitToken t = [a, b] ∧
      parse_time (String.mk a) = .ok s ∧ parse_time (String.mk b) = .ok e ∧
      (0 : ℚ) ≤ s ∧ s < e := by
    have htok : tokens "0-10,95-120" =
        [['0', '-', '1', '0'], ['9', '5', '-', '1', '2', '0']] := by decide
    rw [htok]
    intro t ht
    rcases List.mem_cons.mp ht with rfl | ht
    · exact ⟨['0'], ['1', '0'], 0, 10, by decide, by decide, by decide,
        by norm_num, by norm_num⟩
    rcases List.mem_cons.mp ht with rfl | ht
    · exact ⟨['9', '5'], ['1', '2', '0'], 95, 120, by decide, by decide, by decide,
        by norm_num, by norm_num⟩
    · simp at ht
  have h := (c1_parse_segments_clamp "0-10,95-120" 100 (by norm_num) hall).1
  rw [h]
  decide

/-- C2 (amended): a token is split at the colon exactly when it has no hyphen
and exactly one colon, and otherwise split at hyphens; the colon-form example
`"0:10,30:45"` with duration 100 gives `[(0,10),(30,45)]`, but the
hyphen-form example `"00:00-00:10,00:30-00:45"` with duration 100 gives
`[(0,100)]` (its sub-tokens are `H:MM` timestamps: `"00:10"` is 600 s,
clamped to 100, and `"00:30"` is 1800 s ≥ 100, so the second segment is
dropped), not `[(0,10),(30,45)]`. -/
theorem c2_separator_disambiguation :
    (∀ t : List Char, '-' ∉ t ∧ t.count ':' = 1 → splitToken t = splitOnChar t ':') ∧
    (∀ t : List Char, '-' ∈ t ∨ t.count ':' ≠ 1 → splitToken t = splitOnChar t '-') ∧
    parse_segments "0:10,30:45" 100 = .ok [(0, 10), (30, 45)] ∧
    parse_segments "00:00-00:10,00:30-00:45" 100 = .ok [(0, 100)] := by
  refine ⟨?_, ?_, by decide, by decide⟩
  · intro t ⟨h1, h2⟩
    exact if_pos ⟨h1, List.count_pos_iff.mp (by rw [h2]; norm_num), h2⟩
  · intro t h
    apply if_neg
    rintro ⟨hn, -, hc⟩
    rcases h with h | h
    · exact hn h
    · exact h hc

theorem c2_witness :
    splitToken ['0', ':', '1', '0'] = [['0'], ['1', '0']] ∧
    splitToken ['0', '0', ':', '0', '0', '-', '0', '0', ':', '1', '0'] =
      [['0', '0', ':', '0', '0'], ['0', '0', ':', '1', '0']] := by
  constructor
  · rw [c2_separator_disambiguation.1 ['0', ':', '1', '0'] ⟨by decide, by decide⟩]
    decide
  · rw [c2_separator_disambiguation.2.1
      ['0', '0', ':', '0', '0', '-', '0', '0', ':', '1', '0'] (Or.inl (by decide))]
    decide

theorem c2_counterexample :
    parse_segments "00:00-00:10,00:30-00:45" 100 = .ok [(0, 100)] ∧
    parse_segments "00:00-00:10,00:30-00:45" 100 ≠ .ok [(0, 10), (30, 45)] := by
  constructor
  · decide
  · decide

/-- C3: `parse_time` returns the numeric value of a plain (optionally
decimal) number token; on an `H:MM[:SS]` token (hours one or more digits,
minutes 1–2 digits, optional seconds 1–2 digits) it returns
`h*3600 + mm*60 + ss` with `ss` defaulting to 0; on every other token it
fails with `InvalidTimeFormat` carrying the offending token. -/
theorem c3_parse_time_spec :
    (∀ a : List Char, isDigits a → parse_time (String.mk a) = .ok ((natOfDigits a : ℚ))) ∧
    (∀ a b : List Char, isDigits a → isDigits b →
      parse_time (String.mk (a ++ '.' :: b)) =
        .ok ((natOfDigits a : ℚ) + (natOfDigits b : ℚ) / (10 : ℚ) ^ b.length)) ∧
    (∀ hl ml : List Char, isDigits hl → isDigits ml → ml.length ≤ 2 →
      parse_time (String.mk (hl ++ ':' :: ml)) =
        .ok ((natOfDigits hl * 3600 + natOfDigits ml * 60 : ℕ) : ℚ)) ∧
    (∀ hl ml sl : List Char, isDigits hl → isDigits ml → ml.length ≤ 2 →
      isDigits sl → sl.length ≤ 2 →
      parse_time (String.mk (hl ++ ':' :: (ml ++ ':' :: sl))) =
        .ok ((natOfDigits hl * 3600 + natOfDigits ml * 60 + natOfDigits sl : ℕ) : ℚ)) ∧
    (∀ s : String, matchesNumber s.data = false → matchesHMS s.data = none →
      parse_time s = .error (.invalidTimeFormat s)) :=
  ⟨parse_time_digits, parse_time_decimal, parse_time_hm, parse_time_hms, parse_time_fail⟩

theorem c3_witness :
    parse_time "90" = .ok 90 ∧ parse_time "1.5" = .ok (3 / 2) ∧
    parse_time "1:30" = .ok 5400 ∧ parse_time "1:02:03" = .ok 3723 ∧
    parse_time "xx" = .error (.invalidTimeFormat "xx") := by
  refine ⟨?_, ?_, ?_, ?_, ?_⟩
  · exact (c3_parse_time_spec.1 ['9', '0'] (by decide)).trans (by decide)
  · refine (c3_parse_time_spec.2.1 ['1'] ['5'] (by decide) (by decide)).trans ?_
    have h1 : natOfDigits ['1'] = 1 := by decide
    have h5 : natOfDigits ['5'] = 5 := by decide
    have hl : (['5'] : List Char).length = 1 := by decide
    rw [h1, h5, hl]
    norm_num
  · exact (c3_parse_time_spec.2.2.1 ['1'] ['3', '0'] (by decide) (by decide)
      (by decide)).trans (by decide)
  · exact (c3_parse_time_spec.2.2.2.1 ['1'] ['0', '2'] ['0', '3'] (by decide) (by decide)
      (by decide) (by decide) (by decide)).trans (by decide)
  · exact c3_parse_time_spec.2.2.2.2 "xx" (by decide) (by decide)

/-- C8: when both halves of a token parse to `start` and `end`, the loop body
fails with `InvalidSegment` (carrying the token) exactly when `start < 0` or
`end ≤ start`; in particular `parse_segments` on `"10-5"` fails with
`InvalidSegment` for every duration, because validation precedes the
drop/clamp step. -/
theorem c8_invalid_segment_iff :
    (∀ (t a b : List Char) (d s e : ℚ), splitToken t = [a, b] →
      parse_time (String.mk a) = .ok s → parse_time (String.mk b) = .ok e →
      (processToken d t = .error (.invalidSegment (String.mk t)) ↔ s < 0 ∨ e ≤ s)) ∧
    ∀ d : ℚ, parse_segments "10-5" d = .error (.invalidSegment "10-5") := by
  constructor
  · intro t a b d s e hsplit ha hb
    simp only [processToken, hsplit, ha, hb]
    by_cases hc : s < 0 ∨ e ≤ s
    · rw [if_pos hc]
      simp [hc]
    · rw [if_neg hc]
      constructor
      · intro h
        by_cases hd : d ≤ s
        · rw [if_pos hd] at h
          exact absurd h (by simp)
        · rw [if_neg hd] at h
          exact absurd h (by simp)
      · intro h
        exact absurd h hc
  · intro d
    rw [parse_segments]
    have htok : tokens "10-5" = [['1', '0', '-', '5']] := by decide
    rw [htok, parseSegmentsList]
    have hpt : processToken d ['1', '0', '-', '5'] =
        .error (.invalidSegment (String.mk ['1', '0', '-', '5'])) := by
      have hsp : splitToken ['1', '0', '-', '5'] = [['1', '0'], ['5']] := by decide
      have h10 : parse_time (String.mk ['1', '0']) = .ok 10 := by decide
      have h5 : parse_time (String.mk ['5']) = .ok 5 := by decide
      simp only [processToken, hsp, h10, h5]
      rw [if_pos (Or.inr (by norm_num))]
    rw [hpt]

theorem c8_witness :
    processToken 100 ['1', '0', '-', '5'] =
      .error (.invalidSegment (String.mk ['1', '0', '-', '5'])) :=
  (c8_invalid_segment_iff.1 ['1', '0', '-', '5'] ['1', '0'] ['5'] 100 10 5
    (by decide) (by decide) (by decide)).mpr (Or.inr (by norm_num))

/-- C10: a trimmed non-empty comma-free token with either no hyphen and not
exactly one colon, or with two or more hyphens, makes `parse_segments` fail
with the generic tuple-unpacking `ValueError` (`a, b = part.split("-")`
receives a number of pieces different from two) — not with
`InvalidTimeFormat` or `InvalidSegment`. -/
theorem c10_unpack_error (t : List Char) (d : ℚ) (hne : t ≠ [])
    (hstrip : stripChars t = t) (hcomma : ',' ∉ t)
    (hcond : ('-' ∉ t ∧ t.count ':' ≠ 1) ∨ 2 ≤ t.count '-') :
    parse_segments (String.mk t) d = .error (.unpackMismatch 2 (t.count '-' + 1)) ∧
      t.count '-' + 1 ≠ 2 ∧
      ∀ tok : String, PyError.unpackMismatch 2 (t.count '-' + 1) ≠ .invalidTimeFormat tok ∧
        PyError.unpackMismatch 2 (t.count '-' + 1) ≠ .invalidSegment tok := by
  have hsp : splitToken t = splitOnChar t '-' := by
    apply if_neg
    rintro ⟨hnm, -, hc1⟩
    rcases hcond with ⟨-, hc⟩ | hc
    · exact hc hc1
    · exact hnm (List.count_pos_iff.mp (by omega))
  have hlen : (splitOnChar t '-').length = t.count '-' + 1 := splitOnChar_length '-' t
  have hne2 : t.count '-' + 1 ≠ 2 := by
    rcases hcond with ⟨hnm, -⟩ | hc
    · rw [List.count_eq_zero.mpr hnm]
      omega
    · omega
  have hpt : processToken d t = .error (.unpackMismatch 2 (t.count '-' + 1)) := by
    rcases hsh : splitOnChar t '-' with _ | ⟨a, _ | ⟨b, _ | ⟨c2, tl3⟩⟩⟩
    · exact absurd hsh (splitOnCharAux_ne_nil _ _ _)
    · rw [processToken, hsp, ← hlen, hsh]
    · rw [hsh] at hlen
      simp only [List.length_cons, List.length_nil] at hlen
      omega
    · rw [processToken, hsp, ← hlen, hsh]
  have htok : tokens (String.mk t) = [t] := by
    rw [tokens]
    show ((splitOnChar t ',').map stripChars).filter (· ≠ []) = [t]
    rw [splitOnChar_of_not_mem _ _ hcomma]
    simp [hstrip, hne]
  refine ⟨?_, hne2, ?_⟩
  · rw [parse_segments, htok, parseSegmentsList, hpt]
  · intro tok
    constructor
    · intro hcon
      cases hcon
    · intro hcon
      cases hcon

theorem c10_witness :
    parse_segments "90" (100 : ℚ) = .error (.unpackMismatch 2 1) ∧
    parse_segments "1:30:45" (100 : ℚ) = .error (.unpackMismatch 2 1) ∧
    parse_segments "1-2-3" (100 : ℚ) = .error (.unpackMismatch 2 3) := by
  refine ⟨?_, ?_, ?_⟩
  · exact ((c10_unpack_error ['9', '0'] 100 (by decide) (by decide) (by decide)
      (Or.inl ⟨by decide, by decide⟩)).1).trans (by decide)
  · exact ((c10_unpack_error ['1', ':', '3', '0', ':', '4', '5'] 100 (by decide) (by decide)
      (by decide) (Or.inl ⟨by decide, by decide⟩)).1).trans (by decide)
  · exact ((c10_unpack_error ['1', '-', '2', '-', '3'] 100 (by decide) (by decide)
      (by decide) (Or.inr (by decide))).1).trans (by decide)

/-! ### Output naming (`process_segments`) -/

theorem processLoop_spec (output_dir pre : String) (segs : List (ℚ × ℚ)) :
    ∀ k, (processLoop output_dir pre k segs).length = segs.length ∧
      ∀ i, i < segs.length →
        (processLoop output_dir pre k segs)[i]? =
          some (output_dir ++ "/" ++ pre ++ "_part" ++ toString (k + i) ++ ".mp4") := by
  induction segs with
  | nil => exact fun k => ⟨rfl, fun i hi => absurd hi (by simp)⟩
  | cons p ps ih =>
    intro k
    constructor
    · simp only [processLoop, List.length_cons, (ih (k + 1)).1]
    · intro i hi
      cases i with
      | zero => simp [processLoop]
      | succ j =>
        have harith : k + 1 + j = k + (j + 1) := by omega
        rw [processLoop, List.getElem?_cons_succ,
          (ih (k + 1)).2 j (by simpa using hi), harith]

/-- C9: `process_segments` produces exactly one output per segment, the
`i`-th (1-based, in input order) being `{output_dir}/{prefix}_part{i}.mp4`,
and returns the paths in segment order. -/
theorem c9_output_naming (video_path : String) (segments : List (ℚ × ℚ))
    (aspect resolution : ℤ × ℤ) (fps : ℕ) (output_dir pre : String) :
    (process_segments video_path segments aspect resolution fps output_dir pre).length =
      segments.length ∧
    ∀ i, i < segments.length →
      (process_segments video_path segments aspect resolution fps output_dir pre)[i]? =
        some (output_dir ++ "/" ++ pre ++ "_part" ++ toString (i + 1) ++ ".mp4") := by
  have h := processLoop_spec output_dir pre segments 1
  exact ⟨h.1, fun i hi => by rw [process_segments, (h.2 i hi), Nat.add_comm 1 i]⟩

theorem c9_witness :
    (process_segments "v.mp4" [((0 : ℚ), (10 : ℚ)), (95, 100)] (9, 16) (1080, 1920) 30
      "output" "clip").length = 2 ∧
    (process_segments "v.mp4" [((0 : ℚ), (10 : ℚ)), (95, 100)] (9, 16) (1080, 1920) 30
      "output" "clip")[0]? = some "output/clip_part1.mp4" ∧
    (process_segments "v.mp4" [((0 : ℚ), (10 : ℚ)), (95, 100)] (9, 16) (1080, 1920) 30
      "output" "clip")[1]? = some "output/clip_part2.mp4" := by
  have h := c9_output_naming "v.mp4" [((0 : ℚ), (10 : ℚ)), (95, 100)] (9, 16) (1080, 1920) 30
    "output" "clip"
  exact ⟨h.1, (h.2 0 (by norm_num)).trans (by rfl), (h.2 1 (by norm_num)).trans (by rfl)⟩

/-! ### Ratio and resolution -/

/-- C6 (amended): whenever `ratio_from_string` succeeds, both returned
components are non-negative integers; strict positivity is NOT guaranteed,
since the regex `^(\d+)\s*:\s*(\d+)$` accepts zero components (see the
counterexample at `"0:16"`). -/
theorem c6_ratio_nonneg (s : String) (w h : ℤ)
    (hok : ratio_from_string s = .ok (w, h)) : 0 ≤ w ∧ 0 ≤ h := by
  rw [ratio_from_string] at hok
  rcases hsp : splitOnChar s.data ':' with _ | ⟨a, _ | ⟨b, _ | ⟨c2, tl⟩⟩⟩ <;>
    rw [hsp] at hok
  · exact absurd hok (by simp)
  · exact absurd hok (by simp)
  · simp only at hok
    split at hok
    · simp only [Except.ok.injEq, Prod.mk.injEq] at hok
      obtain ⟨rfl, rfl⟩ := hok
      exact ⟨Int.natCast_nonneg _, Int.natCast_nonneg _⟩
    · exact absurd hok (by simp)
  · exact absurd hok (by simp)

theorem c6_witness : (0 : ℤ) ≤ 9 ∧ (0 : ℤ) ≤ 16 :=
  c6_ratio_nonneg "9:16" 9 16 (by decide)

theorem c6_counterexample :
    ¬ ∀ (s : String) (w h : ℤ), ratio_from_string s = .ok (w, h) → 0 < w ∧ 0 < h := by
  intro hcl
  exact absurd (hcl "0:16" 0 16 (by decide)).1 (by norm_num)

/-- C7 (amended): with a non-empty explicit string, the resolver returns the
two parsed numbers exactly when the string is two digit groups separated by
`x` (zero values included — "positive" is NOT enforced, see the
counterexample), failing with `InvalidResolution` otherwise; with no string
(or an empty one, which Python's `if arg:` also treats as absent) it returns
`(1080, 1920)` for aspect `(9,16)` and `(1920, 1080)` for every other
aspect. -/
theorem c7_resolution_spec :
    (∀ (dW dH : List Char) (a : ℤ × ℤ), isDigits dW → isDigits dH →
      resolution_from_arg (some (String.mk (dW ++ 'x' :: dH))) a =
        .ok ((natOfDigits dW : ℤ), (natOfDigits dH : ℤ))) ∧
    (∀ (s : String) (a : ℤ × ℤ), s.data ≠ [] →
      (¬ ∃ dW dH, s.data = dW ++ 'x' :: dH ∧ isDigits dW ∧ isDigits dH) →
      resolution_from_arg (some s) a = .error .invalidResolution) ∧
    (∀ a : ℤ × ℤ, resolution_from_arg none a = .ok (defaultResolution a)) ∧
    (∀ a : ℤ × ℤ, resolution_from_arg (some "") a = .ok (defaultResolution a)) ∧
    defaultResolution (9, 16) = (1080, 1920) ∧
    ∀ a : ℤ × ℤ, a ≠ (9, 16) → defaultResolution a = (1920, 1080) := by
  refine ⟨?_, ?_, fun a => rfl, fun a => rfl, by decide, fun a ha => ?_⟩
  · intro dW dH a hdW hdH
    have hxw : 'x' ∉ dW := not_mem_of_isDigits dW hdW 'x' (by decide)
    have hxh : 'x' ∉ dH := not_mem_of_isDigits dH hdH 'x' (by decide)
    have hsp : splitOnChar (dW ++ 'x' :: dH) 'x' = [dW, dH] := by
      rw [splitOnChar_append _ _ _ hxw, splitOnChar_of_not_mem _ _ hxh]
    have hne : dW ++ 'x' :: dH ≠ ([] : List Char) := by simp
    simp only [resolution_from_arg]
    rw [if_pos hne]
    rw [hsp]
    show (if isDigits dW = true ∧ isDigits dH = true then
        Except.ok ((natOfDigits dW : ℤ), (natOfDigits dH : ℤ))
      else Except.error PyError.invalidResolution) = _
    rw [if_pos ⟨hdW, hdH⟩]
  · intro s a hne hnot
    rcases hsp : splitOnChar s.data 'x' with _ | ⟨p, _ | ⟨q, _ | ⟨r, tl⟩⟩⟩
    · exact absurd hsp (splitOnCharAux_ne_nil _ _ _)
    · simp only [resolution_from_arg]
      rw [if_pos hne, hsp]
    · by_cases hd : isDigits p ∧ isDigits q
      · obtain ⟨hs', -, -⟩ := splitOnChar_eq_pair _ _ _ _ hsp
        exact absurd ⟨p, q, hs', hd.1, hd.2⟩ hnot
      · simp only [resolution_from_arg]
        rw [if_pos hne, hsp]
        show (if isDigits p = true ∧ isDigits q = true then
            Except.ok ((natOfDigits p : ℤ), (natOfDigits q : ℤ))
          else Except.error PyError.invalidResolution) = _
        rw [if_neg hd]
    · simp only [resolution_from_arg]
      rw [if_pos hne, hsp]
  · rw [defaultResolution, if_neg ha]

theorem c7_witness :
    resolution_from_arg (some "1080x1920") (9, 16) = .ok (1080, 1920) ∧
    resolution_from_arg (some "abc") (9, 16) = .error .invalidResolution ∧
    resolution_from_arg none (16, 9) = .ok (1920, 1080) ∧
    resolution_from_arg (some "") (16, 9) = .ok (1920, 1080) := by
  refine ⟨?_, ?_, ?_, ?_⟩
  · exact (c7_resolution_spec.1 ['1', '0', '8', '0'] ['1', '9', '2', '0'] (9, 16)
      (by decide) (by decide)).trans (by decide)
  · refine c7_resolution_spec.2.1 "abc" (9, 16) (by decide) ?_
    rintro ⟨dW, dH, hs, -, -⟩
    have : 'x' ∈ "abc".data := by
      rw [hs]
      simp
    exact absurd this (by decide)
  · exact (c7_resolution_spec.2.2.1 (16, 9)).trans (by decide)
  · exact (c7_resolution_spec.2.2.2.1 (16, 9)).trans (by decide)

theorem c7_counterexample :
    resolution_from_arg (some "0x1920") (9, 16) = .ok (0, 1920) ∧
    resolution_from_arg (some "0x1920") (9, 16) ≠ .error .invalidResolution := by
  constructor
  · decide
  · decide

/-! ### Crop geometry -/

theorem crop_to_ratio_near (w h trw trh : ℤ)
    (hnear : |(w : ℚ) / h - (trw : ℚ) / trh| < 1 / 1000000) :
    crop_to_ratio w h trw trh = (0, 0, w, h) := by
  simp only [crop_to_ratio]
  rw [if_pos hnear]

theorem crop_to_ratio_wider (w h trw trh : ℤ) (hh : 0 < h) (htw : 0 < trw) (hth : 0 < trh)
    (hfar : 1 / 1000000 ≤ |(w : ℚ) / h - (trw : ℚ) / trh|)
    (hlt : (trw : ℚ) / trh < (w : ℚ) / h) :
    crop_to_ratio w h trw trh =
      ((w - ⌊(h : ℚ) * ((trw : ℚ) / trh)⌋).fdiv 2, 0,
        (w - ⌊(h : ℚ) * ((trw : ℚ) / trh)⌋).fdiv 2 + ⌊(h : ℚ) * ((trw : ℚ) / trh)⌋, h) := by
  have htr : truncQ ((h : ℚ) * ((trw : ℚ) / trh)) = ⌊(h : ℚ) * ((trw : ℚ) / trh)⌋ := by
    rw [truncQ, if_pos]
    exact mul_nonneg (by exact_mod_cast hh.le)
      (div_nonneg (by exact_mod_cast htw.le) (by exact_mod_cast hth.le))
  simp only [crop_to_ratio]
  rw [if_neg (not_lt.mpr hfar), if_pos hlt, htr]

theorem crop_to_ratio_taller (w h trw trh : ℤ) (hw : 0 < w) (htw : 0 < trw) (hth : 0 < trh)
    (hfar : 1 / 1000000 ≤ |(w : ℚ) / h - (trw : ℚ) / trh|)
    (hlt : (w : ℚ) / h < (trw : ℚ) / trh) :
    crop_to_ratio w h trw trh =
      (0, (h - ⌊(w : ℚ) / ((trw : ℚ) / trh)⌋).fdiv 2, w,
        (h - ⌊(w : ℚ) / ((trw : ℚ) / trh)⌋).fdiv 2 + ⌊(w : ℚ) / ((trw : ℚ) / trh)⌋) := by
  have htr : truncQ ((w : ℚ) / ((trw : ℚ) / trh)) = ⌊(w : ℚ) / ((trw : ℚ) / trh)⌋ := by
    rw [truncQ, if_pos]
    exact div_nonneg (by exact_mod_cast hw.le)
      (div_nonneg (by exact_mod_cast htw.le) (by exact_mod_cast hth.le))
  simp only [crop_to_ratio]
  rw [if_neg (not_lt.mpr hfar), if_neg (not_lt.mpr hlt.le), htr]

/-- Python `//` on non-negative operands is the floor of exact division:
connects `Int.fdiv` to the `x1 = floor((w-new_w)/2)` phrasing of the spec. -/
theorem int_fdiv_two_eq_floor (a : ℤ) (ha : 0 ≤ a) : a.fdiv 2 = ⌊(a : ℚ) / 2⌋ := by
  lift a to ℕ using ha with m
  show Int.fdiv ((m : ℕ) : ℤ) (((2 : ℕ) : ℕ) : ℤ) = _
  rw [← Int.ofNat_fdiv m 2, Int.cast_natCast]
  rw [show (2 : ℚ) = ((2 : ℕ) : ℚ) from by norm_cast]
  rw [Rat.floor_natCast_div_natCast]
  exact Int.natCast_div m 2

theorem crop_example_value : crop_to_ratio 1920 1080 9 16 = (656, 0, 1263, 1080) := by
  have h := crop_to_ratio_wider 1920 1080 9 16 (by norm_num) (by norm_num) (by norm_num)
    (by rw [abs_of_pos (by norm_num)]; norm_num) (by norm_num)
  rw [h]
  have h607 : ⌊((1080 : ℤ) : ℚ) * (((9 : ℤ) : ℚ) / ((16 : ℤ) : ℚ))⌋ = 607 := by
    push_cast
    norm_num
  rw [h607]
  decide

/-- C5: the crop geometry returns the full frame when the source and target
ratios differ by less than `1e-6`; when the source is relatively wider it
keeps the full height and narrows the width to `new_w = ⌊h·target⌋` centered
(`x1 = ⌊(w−new_w)/2⌋`); otherwise it keeps the full width and shortens the
height to `new_h = ⌊w/target⌋` centered.  In particular source `(1920,1080)`
with target `(9,16)` gives `new_w = 607`, `x1 = 656`, `x2 = 1263`, full
height. -/
theorem c5_crop_geometry (w h trw trh : ℤ) (hw : 0 < w) (hh : 0 < h)
    (htw : 0 < trw) (hth : 0 < trh) :
    (|(w : ℚ) / h - (trw : ℚ) / trh| < 1 / 1000000 →
      crop_to_ratio w h trw trh = (0, 0, w, h)) ∧
    (1 / 1000000 ≤ |(w : ℚ) / h - (trw : ℚ) / trh| → (trw : ℚ) / trh < (w : ℚ) / h →
      crop_to_ratio w h trw trh =
        ((w - ⌊(h : ℚ) * ((trw : ℚ) / trh)⌋).fdiv 2, 0,
          (w - ⌊(h : ℚ) * ((trw : ℚ) / trh)⌋).fdiv 2 + ⌊(h : ℚ) * ((trw : ℚ) / trh)⌋, h)) ∧
    (1 / 1000000 ≤ |(w : ℚ) / h - (trw : ℚ) / trh| → (w : ℚ) / h < (trw : ℚ) / trh →
      crop_to_ratio w h trw trh =
        (0, (h - ⌊(w : ℚ) / ((trw : ℚ) / trh)⌋).fdiv 2, w,
          (h - ⌊(w : ℚ) / ((trw : ℚ) / trh)⌋).fdiv 2 + ⌊(w : ℚ) / ((trw : ℚ) / trh)⌋)) ∧
    crop_to_ratio 1920 1080 9 16 = (656, 0, 1263, 1080) ∧
    ∀ a : ℤ, 0 ≤ a → a.fdiv 2 = ⌊(a : ℚ) / 2⌋ :=
  ⟨crop_to_ratio_near w h trw trh,
    fun hfar hlt => crop_to_ratio_wider w h trw trh hh htw hth hfar hlt,
    fun hfar hlt => crop_to_ratio_taller w h trw trh hw htw hth hfar hlt,
    crop_example_value, int_fdiv_two_eq_floor⟩

theorem c5_witness : crop_to_ratio 1920 1080 9 16 = (656, 0, 1263, 1080) :=
  (c5_crop_geometry 1920 1080 9 16 (by norm_num) (by norm_num) (by norm_num)
    (by norm_num)).2.2.2.1

/-- C4 (amended): for positive dimensions and a positive target ratio at
distance at least `1e-6` from the source ratio, the crop rectangle's sides
satisfy `width = ⌊height · trw/trh⌋` (source relatively wider: full height)
or `height = ⌊width · trh/trw⌋` (source relatively taller: full width) — the
cropped region's aspect ratio equals the target only up to the integer
truncation of `int()`, not exactly (see the counterexample). -/
theorem c4_crop_ratio_floor (w h trw trh : ℤ) (hw : 0 < w) (hh : 0 < h)
    (htw : 0 < trw) (hth : 0 < trh)
    (hfar : 1 / 1000000 ≤ |(w : ℚ) / h - (trw : ℚ) / trh|)
    (x1 y1 x2 y2 : ℤ) (hc : crop_to_ratio w h trw trh = (x1, y1, x2, y2)) :
    (x2 - x1 = ⌊((y2 - y1 : ℤ) : ℚ) * ((trw : ℚ) / trh)⌋ ∧ y2 - y1 = h) ∨
    (y2 - y1 = ⌊((x2 - x1 : ℤ) : ℚ) * ((trh : ℚ) / trw)⌋ ∧ x2 - x1 = w) := by
  have hne : (w : ℚ) / h ≠ (trw : ℚ) / trh := by
    intro heq
    rw [heq, sub_self, abs_zero] at hfar
    norm_num at hfar
  rcases lt_or_gt_of_ne hne with hlt | hgt
  · right
    rw [crop_to_ratio_taller w h trw trh hw htw hth hfar hlt] at hc
    obtain ⟨rfl, rfl, rfl, rfl⟩ : 0 = x1 ∧ (h - ⌊(w : ℚ) / ((trw : ℚ) / trh)⌋).fdiv 2 = y1 ∧
        w = x2 ∧ (h - ⌊(w : ℚ) / ((trw : ℚ) / trh)⌋).fdiv 2 + ⌊(w : ℚ) / ((trw : ℚ) / trh)⌋ = y2 := by
      simpa [Prod.ext_iff] using hc
    constructor
    · have hdiv : (w : ℚ) / ((trw : ℚ) / trh) = (w : ℚ) * ((trh : ℚ) / trw) := by
        rw [div_div_eq_mul_div, mul_div_assoc]
      rw [add_sub_cancel_left, hdiv, sub_zero]
    · rw [sub_zero]
  · left
    rw [crop_to_ratio_wider w h trw trh hh htw hth hfar hgt] at hc
    obtain ⟨rfl, rfl, rfl, rfl⟩ : (w - ⌊(h : ℚ) * ((trw : ℚ) / trh)⌋).fdiv 2 = x1 ∧ 0 = y1 ∧
        (w - ⌊(h : ℚ) * ((trw : ℚ) / trh)⌋).fdiv 2 + ⌊(h : ℚ) * ((trw : ℚ) / trh)⌋ = x2 ∧
        h = y2 := by
      simpa [Prod.ext_iff] using hc
    constructor
    · rw [add_sub_cancel_left, sub_zero]
    · rw [sub_zero]

theorem c4_witness :
    ((1263 : ℤ) - 656 = ⌊(((1080 : ℤ) - 0 : ℤ) : ℚ) * ((9 : ℚ) / 16)⌋ ∧
      (1080 : ℤ) - 0 = 1080) ∨
    ((1080 : ℤ) - 0 = ⌊(((1263 : ℤ) - 656 : ℤ) : ℚ) * ((16 : ℚ) / 9)⌋ ∧
      (1263 : ℤ) - 656 = 1920) :=
  c4_crop_ratio_floor 1920 1080 9 16 (by norm_num) (by norm_num) (by norm_num) (by norm_num)
    (by rw [abs_of_pos (by norm_num)]; norm_num) 656 0 1263 1080 crop_example_value

theorem c4_counterexample :
    crop_to_ratio 1920 1080 9 16 = (656, 0, 1263, 1080) ∧
    1 / 1000000 ≤ |(1920 : ℚ) / 1080 - (9 : ℚ) / 16| ∧
    ((1263 - 656 : ℤ) : ℚ) / ((1080 - 0 : ℤ) : ℚ) ≠ (9 : ℚ) / 16 := by
  refine ⟨crop_example_value, by rw [abs_of_pos (by norm_num)]; norm_num, by norm_num⟩
